import Mathlib

/-!
Verification of `hand_eye_calibration_experiments/bin/compute_set_of_hand_eye_calibrations.py`.

The driver script is embedded shallowly: pure fragments become Lean functions, the
per-pose-pair mutation of the module-level result accumulators becomes explicit state
passing, Python `assert` / exceptions become `Except` / `Option` results, and the
floating-point arithmetic of the imported dual-quaternion library is modelled over `ℚ`
with exact arithmetic.  The imported `hand_eye_calibration` package (quaternions, dual
quaternions, `compute_pose_error`) is not part of the given sources, so those leaves are
modelled from the specification text and clearly marked as such.
-/

namespace HandEyeCalib

/-- Modelled from the spec: `hand_eye_calibration.quaternion.Quaternion`, 4 real
components in (x, y, z, w) order, with the Hamilton product, conjugate and inverse.
The library's floating-point components are modelled as exact rationals. -/
structure Quaternion where
  x : ℚ
  y : ℚ
  z : ℚ
  w : ℚ
deriving DecidableEq, Repr

/-- Modelled from the spec: the Hamilton product (non-commutative quaternion
multiplication) with components in (x, y, z, w) order. -/
def Quaternion.mul (p q : Quaternion) : Quaternion :=
  ⟨p.w * q.x + p.x * q.w + p.y * q.z - p.z * q.y,
   p.w * q.y - p.x * q.z + p.y * q.w + p.z * q.x,
   p.w * q.z + p.x * q.y - p.y * q.x + p.z * q.w,
   p.w * q.w - p.x * q.x - p.y * q.y - p.z * q.z⟩

instance : Mul Quaternion := ⟨Quaternion.mul⟩

/-- Componentwise addition of quaternions. -/
def Quaternion.add (p q : Quaternion) : Quaternion :=
  ⟨p.x + q.x, p.y + q.y, p.z + q.z, p.w + q.w⟩

instance : Add Quaternion := ⟨Quaternion.add⟩

/-- Componentwise negation of a quaternion. -/
def Quaternion.neg (q : Quaternion) : Quaternion := ⟨-q.x, -q.y, -q.z, -q.w⟩

instance : Neg Quaternion := ⟨Quaternion.neg⟩

/-- Modelled from the spec: the quaternion conjugate (negated vector part). -/
def Quaternion.conjugate (q : Quaternion) : Quaternion := ⟨-q.x, -q.y, -q.z, q.w⟩

/-- The squared norm of a quaternion. -/
def Quaternion.squaredNorm (q : Quaternion) : ℚ := q.x ^ 2 + q.y ^ 2 + q.z ^ 2 + q.w ^ 2

/-- Modelled from the spec: the quaternion inverse, conjugate divided by squared norm. -/
def Quaternion.inverse (q : Quaternion) : Quaternion :=
  ⟨-q.x / q.squaredNorm, -q.y / q.squaredNorm, -q.z / q.squaredNorm, q.w / q.squaredNorm⟩

instance : One Quaternion := ⟨⟨0, 0, 0, 1⟩⟩

instance : Zero Quaternion := ⟨⟨0, 0, 0, 0⟩⟩

@[ext] theorem Quaternion.quat_ext {p q : Quaternion}
    (hx : p.x = q.x) (hy : p.y = q.y) (hz : p.z = q.z) (hw : p.w = q.w) : p = q := by
  cases p
  cases q
  simp_all

/-- Modelled from the spec: `hand_eye_calibration.dual_quaternion.DualQuaternion`, an
ordered pair of quaternions (real/rotation part, dual part) representing a rigid
transform. -/
structure DualQuaternion where
  q_rot : Quaternion
  q_dual : Quaternion
deriving DecidableEq, Repr

/-- Modelled from the spec: dual-quaternion multiplication, composition of rigid
transforms: real parts multiply, dual part is `r1*d2 + d1*r2`. -/
def DualQuaternion.mul (a b : DualQuaternion) : DualQuaternion :=
  ⟨a.q_rot * b.q_rot, a.q_rot * b.q_dual + a.q_dual * b.q_rot⟩

instance : Mul DualQuaternion := ⟨DualQuaternion.mul⟩

/-- Modelled from the spec: the dual-quaternion inverse,
`(r, d)⁻¹ = (r⁻¹, -(r⁻¹ * d * r⁻¹))`. -/
def DualQuaternion.inverse (a : DualQuaternion) : DualQuaternion :=
  ⟨a.q_rot.inverse, -(a.q_rot.inverse * a.q_dual * a.q_rot.inverse)⟩

/-- The identity transform `DualQuaternion(Quaternion(0, 0, 0, 1), Quaternion(0, 0, 0, 0))`
used by `compute_loop_error` as the origin of the chain. -/
instance : One DualQuaternion := ⟨⟨1, 0⟩⟩

instance : Inhabited DualQuaternion := ⟨1⟩

@[ext] theorem DualQuaternion.dq_ext {a b : DualQuaternion}
    (hr : a.q_rot = b.q_rot) (hd : a.q_dual = b.q_dual) : a = b := by
  cases a
  cases b
  simp_all

/-- A pose is the 7-element vector (translation xyz, quaternion xyzw) produced by
`DualQuaternion.to_pose`. -/
abbrev Pose := List ℚ

/-- Modelled from the spec: conversion of a dual quaternion to a 7-element pose vector
(translation xyz then rotation quaternion xyzw); the translation is the vector part of
`2 * q_dual * conjugate(q_rot)`. -/
def DualQuaternion.to_pose (a : DualQuaternion) : Pose :=
  [2 * (a.q_dual * a.q_rot.conjugate).x,
   2 * (a.q_dual * a.q_rot.conjugate).y,
   2 * (a.q_dual * a.q_rot.conjugate).z,
   a.q_rot.x, a.q_rot.y, a.q_rot.z, a.q_rot.w]

/- Basic algebraic facts about the modelled quaternion operations. -/

theorem Quaternion.mul_assoc' (p q r : Quaternion) : p * q * r = p * (q * r) := by
  show (p.mul q).mul r = p.mul (q.mul r)
  ext <;> simp [Quaternion.mul] <;> ring

theorem Quaternion.one_mul_quat (q : Quaternion) : 1 * q = q := by
  show Quaternion.mul ⟨0, 0, 0, 1⟩ q = q
  ext <;> simp [Quaternion.mul]

theorem Quaternion.mul_one' (q : Quaternion) : q * 1 = q := by
  show Quaternion.mul q ⟨0, 0, 0, 1⟩ = q
  ext <;> simp [Quaternion.mul]

theorem Quaternion.zero_mul' (q : Quaternion) : (0 : Quaternion) * q = 0 := by
  show Quaternion.mul ⟨0, 0, 0, 0⟩ q = 0
  ext <;> simp [Quaternion.mul] <;> rfl

theorem Quaternion.add_zero' (q : Quaternion) : q + 0 = q := by
  show Quaternion.add q ⟨0, 0, 0, 0⟩ = q
  ext <;> simp [Quaternion.add]

theorem Quaternion.mul_neg' (p q : Quaternion) : p * (-q) = -(p * q) := by
  show Quaternion.mul p q.neg = (Quaternion.mul p q).neg
  ext <;> simp [Quaternion.mul, Quaternion.neg] <;> ring

theorem Quaternion.neg_add_self' (q : Quaternion) : -q + q = 0 := by
  show Quaternion.add q.neg q = ⟨0, 0, 0, 0⟩
  ext <;> simp [Quaternion.add, Quaternion.neg]

/-- For a unit quaternion the inverse is the conjugate. -/
theorem Quaternion.inverse_of_unit {q : Quaternion} (h : q.squaredNorm = 1) :
    q.inverse = q.conjugate := by
  ext <;> simp [Quaternion.inverse, Quaternion.conjugate, h]

/-- A quaternion times its conjugate is the scalar quaternion holding the squared norm. -/
theorem Quaternion.mul_conjugate (q : Quaternion) :
    q * q.conjugate = ⟨0, 0, 0, q.squaredNorm⟩ := by
  show Quaternion.mul q q.conjugate = _
  ext <;> simp [Quaternion.mul, Quaternion.conjugate, Quaternion.squaredNorm] <;> ring

/-- A unit quaternion times its conjugate is the identity quaternion. -/
theorem Quaternion.mul_conjugate_unit {q : Quaternion} (h : q.squaredNorm = 1) :
    q * q.conjugate = 1 := by
  rw [Quaternion.mul_conjugate, h]
  rfl

/-- Modelled testable property from the spec: for any valid (unit rotation part) rigid
transform `A`, `A * A.inverse()` is the identity transform; exact over `ℚ`. -/
theorem DualQuaternion.mul_inverse_of_unit {a : DualQuaternion}
    (h : a.q_rot.squaredNorm = 1) : a * a.inverse = 1 := by
  have hc : a.q_rot.inverse = a.q_rot.conjugate := Quaternion.inverse_of_unit h
  have h1 : a.q_rot * a.q_rot.conjugate = 1 := Quaternion.mul_conjugate_unit h
  have hassoc : a.q_rot.conjugate * a.q_dual * a.q_rot.conjugate
      = a.q_rot.conjugate * (a.q_dual * a.q_rot.conjugate) := Quaternion.mul_assoc' _ _ _
  have hdual : a.q_rot * -(a.q_rot.conjugate * a.q_dual * a.q_rot.conjugate)
      + a.q_dual * a.q_rot.conjugate = 0 := by
    rw [Quaternion.mul_neg', hassoc, ← Quaternion.mul_assoc', h1, Quaternion.one_mul_quat,
      Quaternion.neg_add_self']
  show DualQuaternion.mul a a.inverse = 1
  unfold DualQuaternion.mul DualQuaternion.inverse
  rw [hc, h1, hdual]
  rfl

theorem DualQuaternion.one_mul_dq (a : DualQuaternion) : 1 * a = a := by
  show DualQuaternion.mul ⟨1, 0⟩ a = a
  unfold DualQuaternion.mul
  rw [show (⟨1, 0⟩ : DualQuaternion).q_rot = 1 from rfl,
    show (⟨1, 0⟩ : DualQuaternion).q_dual = 0 from rfl,
    Quaternion.one_mul_quat, Quaternion.one_mul_quat, Quaternion.zero_mul', Quaternion.add_zero']

/-! ## The loop-closure evaluator of `compute_loop_error` (source lines 42-89) -/

/-- Lean model of `itertools.combinations(lst, 2)`: for each element, pair it with every
later element, in Python's enumeration order. -/
def combinations2 {α : Type} : List α → List (α × α)
  | [] => []
  | x :: xs => (xs.map fun y => (x, y)) ++ combinations2 xs

/-- The while loop of `compute_loop_error` (lines 54-59): starting from counters `i` and
`idx`, repeatedly run `idx += (num_poses_sets - i - 1)` and select `results_dq_H_E[idx]`.
The loop guard `while i < (num_poses_sets - 2)` makes the loop run exactly
`num_poses_sets - 2 - i` times, passed here as the structural argument `steps`.
An out-of-range index is Python's `IndexError`, modelled as `none`. -/
def loopSelect (results : List DualQuaternion) (N : ℕ) :
    ℕ → ℕ → ℕ → Option (List DualQuaternion)
  | 0, _, _ => some []
  | steps + 1, i, idx =>
    match results.get? (idx + (N - i - 1)) with
    | none => none
    | some r => (loopSelect results N steps (i + 1) (idx + (N - i - 1))).map (r :: ·)

/-- The chain construction of `compute_loop_error` (lines 43-63): the identity transform,
then `results_dq_H_E[0]`, then the while-loop selections, and finally
`results_dq_H_E[num_poses_sets - 2].inverse()` to close the loop. -/
def buildChain (results_dq_H_E : List DualQuaternion) (num_poses_sets : ℕ) :
    Option (List DualQuaternion) :=
  match results_dq_H_E.get? 0 with
  | none => none
  | some first =>
    match loopSelect results_dq_H_E num_poses_sets (num_poses_sets - 2) 0 0 with
    | none => none
    | some selected =>
      match results_dq_H_E.get? (num_poses_sets - 2) with
      | none => none
      | some closer => some (1 :: first :: (selected ++ [closer.inverse]))

/-- The composition loop of `compute_loop_error` (lines 70-74): `dq_tmp` starts at the
identity and is multiplied on the right by each chain element in turn; each intermediate
product's pose is collected into `poses_to_plot`. -/
def chainPoses (dq_tmp : DualQuaternion) : List DualQuaternion → List Pose
  | [] => []
  | c :: rest => (dq_tmp * c).to_pose :: chainPoses (dq_tmp * c) rest

/-- `compute_loop_error` (lines 42-89).  The external `compute_pose_error` (imported from
`hand_eye_calibration.dual_quaternion_hand_eye_calibration`, whose source is not given)
is passed as the parameter `compute_pose_error`; the spec says it returns the position
distance and the orientation distance in degrees between two poses.  The module-level
global `num_poses_sets` read by the Python function is passed explicitly.  The returned
value is `compute_pose_error(poses_to_plot[0], poses_to_plot[-1])`; the failed length
`assert` (line 66) and IndexError are modelled as `none`. -/
def compute_loop_error {E : Type} (compute_pose_error : Pose → Pose → E)
    (results_dq_H_E : List DualQuaternion) (num_poses_sets : ℕ) : Option E :=
  match buildChain results_dq_H_E num_poses_sets with
  | none => none
  | some chain =>
    if chain.length = num_poses_sets + 1 then
      some (compute_pose_error (chainPoses 1 chain).headI
        ((chainPoses 1 chain).getLastD []))
    else none

/-! ## Index combinatorics for the chain construction -/

/-- The flattened `itertools.combinations` index of the pair `(a, a+1)` over `N` files:
`∑ m < a, (N - m - 1)` pairs precede it. -/
def combIdx (N a : ℕ) : ℕ := ∑ m in Finset.range a, (N - m - 1)

/-- The successive values taken by `idx` in the while loop of `compute_loop_error`. -/
def strideWalk (N : ℕ) : ℕ → ℕ → ℕ → List ℕ
  | 0, _, _ => []
  | steps + 1, i, idx =>
    (idx + (N - i - 1)) :: strideWalk N steps (i + 1) (idx + (N - i - 1))

/-- Fetch a list of indices from `results`, failing on the first out-of-range index. -/
def fetchAll (results : List DualQuaternion) : List ℕ → Option (List DualQuaternion)
  | [] => some []
  | j :: js =>
    match results.get? j with
    | none => none
    | some r => (fetchAll results js).map (r :: ·)

theorem combIdx_zero (N : ℕ) : combIdx N 0 = 0 := by
  simp [combIdx]

theorem combIdx_succ (N a : ℕ) : combIdx N (a + 1) = combIdx N a + (N - a - 1) :=
  Finset.sum_range_succ _ _

theorem combIdx_mono (N : ℕ) {a b : ℕ} (h : a ≤ b) : combIdx N a ≤ combIdx N b :=
  Finset.sum_le_sum_of_subset (Finset.range_subset.mpr h)

theorem sum_sub_range (k : ℕ) : (∑ m in Finset.range k, (k - m)) = (k + 1).choose 2 := by
  induction k with
  | zero => simp
  | succ k ih =>
    rw [Finset.sum_range_succ']
    simp only [Nat.add_sub_add_right, Nat.sub_zero]
    rw [ih]
    have h2 : (k + 1 + 1).choose 2 = (k + 1).choose 1 + (k + 1).choose 2 :=
      Nat.choose_succ_succ (k + 1) 1
    rw [Nat.choose_one_right] at h2
    omega

/-- The total number of pairwise combinations equals the top stride index. -/
theorem combIdx_top (N : ℕ) (hN : 1 ≤ N) : combIdx N (N - 1) = N.choose 2 := by
  unfold combIdx
  calc (∑ m in Finset.range (N - 1), (N - m - 1))
      = ∑ m in Finset.range (N - 1), (N - 1 - m) :=
        Finset.sum_congr rfl (fun m _ => by omega)
    _ = (N - 1 + 1).choose 2 := sum_sub_range (N - 1)
    _ = N.choose 2 := by rw [Nat.sub_add_cancel hN]

/-- The index of the closing pair `(0, N-1)` is one below `C(N, 2)`: the last selected
stride index is the final combination index. -/
theorem combIdx_last (N : ℕ) (hN : 2 ≤ N) : combIdx N (N - 2) + 1 = N.choose 2 := by
  have h2 := combIdx_top N (by omega)
  rw [show N - 1 = N - 2 + 1 by omega, combIdx_succ,
    show N - (N - 2) - 1 = 1 by omega] at h2
  exact h2

theorem le_combIdx (N : ℕ) : ∀ a, a ≤ N - 2 → a ≤ combIdx N a
  | 0, _ => Nat.zero_le _
  | a + 1, h => by
    have ih := le_combIdx N a (by omega)
    rw [combIdx_succ]
    omega

theorem combinations2_map {α β : Type} (f : α → β) : ∀ l : List α,
    combinations2 (l.map f) = (combinations2 l).map (fun p => (f p.1, f p.2))
  | [] => rfl
  | x :: xs => by
    simp only [List.map_cons, combinations2, List.map_append, List.map_map,
      combinations2_map f xs]
    rfl

theorem combinations2_length {α : Type} :
    ∀ l : List α, (combinations2 l).length = l.length.choose 2
  | [] => rfl
  | x :: xs => by
    simp only [combinations2, List.length_append, List.length_map,
      combinations2_length xs, List.length_cons]
    rw [Nat.choose_succ_succ xs.length 1, Nat.choose_one_right]

theorem combIdx_shift (M a : ℕ) : combIdx (M + 1) (a + 1) = M + combIdx M a := by
  unfold combIdx
  rw [Finset.sum_range_succ']
  simp only [Nat.sub_zero]
  have h1 : (∑ m in Finset.range a, (M + 1 - (m + 1) - 1))
      = ∑ m in Finset.range a, (M - m - 1) :=
    Finset.sum_congr rfl (fun m _ => by omega)
  rw [h1]
  omega

/-- Where each pair sits in the flattened combination list over `List.range N`:
pair `(a, b)` with `a < b < N` sits at index `combIdx N a + (b - a - 1)`. -/
theorem combinations2_range_get : ∀ (N a b : ℕ), a < b → b < N →
    (combinations2 (List.range N)).get? (combIdx N a + (b - a - 1)) = some (a, b)
  | 0, _, b, _, hb => absurd hb (by omega)
  | M + 1, a, b, hab, hb => by
    rw [List.range_succ_eq_map]
    show (combinations2 (0 :: (List.range M).map Nat.succ)).get? _ = _
    rw [show combinations2 (0 :: (List.range M).map Nat.succ)
        = ((List.range M).map Nat.succ).map (fun y => (0, y))
          ++ combinations2 ((List.range M).map Nat.succ) from rfl,
      combinations2_map]
    match a with
    | 0 =>
      have hlt : combIdx (M + 1) 0 + (b - 0 - 1) < (((List.range M).map Nat.succ).map
          (fun y => (0, y))).length := by
        simp only [List.length_map, List.length_range]
        rw [combIdx_zero]
        omega
      rw [List.get?_append hlt]
      rw [combIdx_zero, Nat.zero_add]
      rw [List.get?_map, List.get?_map, List.get?_range (by omega : b - 0 - 1 < M)]
      show some (0, Nat.succ (b - 0 - 1)) = some (0, b)
      rw [show Nat.succ (b - 0 - 1) = b by omega]
    | a' + 1 =>
      obtain ⟨b', rfl⟩ : ∃ bp, b = bp + 1 := ⟨b - 1, by omega⟩
      have hlen : (((List.range M).map Nat.succ).map (fun y => (0, y))).length = M := by
        simp
      have hge : M ≤ combIdx (M + 1) (a' + 1) + (b' + 1 - (a' + 1) - 1) := by
        rw [combIdx_shift]
        omega
      rw [List.get?_append_right (by omega)]
      rw [hlen, combIdx_shift,
        show M + combIdx M a' + (b' + 1 - (a' + 1) - 1) - M
          = combIdx M a' + (b' - a' - 1) by omega]
      rw [List.get?_map, combinations2_range_get M a' b' (by omega) (by omega)]
      rfl

theorem strideWalk_length (N : ℕ) : ∀ steps i idx, (strideWalk N steps i idx).length = steps
  | 0, _, _ => rfl
  | steps + 1, i, idx => by
    simp [strideWalk, strideWalk_length N steps (i + 1)]

/-- The while loop visits exactly the combination indices of the consecutive pairs
`(i+1, i+2), (i+2, i+3), ...` when started at the combination index of `(i, i+1)`. -/
theorem strideWalk_shape (N : ℕ) : ∀ steps i, strideWalk N steps i (combIdx N i)
    = (List.range steps).map (fun k => combIdx N (i + k + 1))
  | 0, _ => rfl
  | steps + 1, i => by
    show (combIdx N i + (N - i - 1)) :: strideWalk N steps (i + 1) (combIdx N i + (N - i - 1))
        = _
    rw [← combIdx_succ, strideWalk_shape N steps (i + 1), List.range_succ_eq_map]
    simp only [List.map_cons, List.map_map]
    have hf : ((fun k => combIdx N (i + k + 1)) ∘ Nat.succ)
        = fun k => combIdx N (i + 1 + k + 1) := by
      funext k
      simp only [Function.comp_apply]
      congr 1
      omega
    rw [hf]

theorem loopSelect_eq_fetchAll (results : List DualQuaternion) (N : ℕ) :
    ∀ steps i idx, loopSelect results N steps i idx
      = fetchAll results (strideWalk N steps i idx)
  | 0, _, _ => rfl
  | steps + 1, i, idx => by
    simp only [loopSelect, strideWalk, fetchAll,
      loopSelect_eq_fetchAll results N steps (i + 1) (idx + (N - i - 1))]

theorem fetchAll_congr (r1 r2 : List DualQuaternion) :
    ∀ js : List ℕ, (∀ j ∈ js, r1.get? j = r2.get? j) → fetchAll r1 js = fetchAll r2 js
  | [], _ => rfl
  | j :: js, h => by
    have hj : r1.get? j = r2.get? j := h j (List.mem_cons_self j js)
    have hrec := fetchAll_congr r1 r2 js (fun x hx => h x (List.mem_cons_of_mem j hx))
    simp only [fetchAll, hj, hrec]

theorem get?_eq_getD_of_lt {α : Type} :
    ∀ (l : List α) (n : ℕ) (d : α), n < l.length → l.get? n = some (l.getD n d)
  | [], n, d, h => absurd h (by simp)
  | a :: l, 0, d, _ => rfl
  | a :: l, n + 1, d, h => get?_eq_getD_of_lt l n d (by simpa using h)

theorem fetchAll_eq_map (r : List DualQuaternion) :
    ∀ js : List ℕ, (∀ j ∈ js, j < r.length)
      → fetchAll r js = some (js.map (fun j => r.getD j 1))
  | [], _ => rfl
  | j :: js, h => by
    have hj : r.get? j = some (r.getD j 1) :=
      get?_eq_getD_of_lt r j 1 (h j (List.mem_cons_self j js))
    have hrec := fetchAll_eq_map r js (fun x hx => h x (List.mem_cons_of_mem j hx))
    simp only [fetchAll, hj, hrec, List.map_cons]
    rfl

theorem chainPoses_length (dq : DualQuaternion) :
    ∀ l, (chainPoses dq l).length = l.length
  | [] => rfl
  | c :: rest => by simp [chainPoses, chainPoses_length (dq * c) rest]

/-- Each collected pose is the left-to-right product of the first `k+1` chain elements,
seeded at `dq_tmp`. -/
theorem chainPoses_get : ∀ (l : List DualQuaternion) (dq : DualQuaternion) (k : ℕ),
    k < l.length → (chainPoses dq l).get? k
      = some (((l.take (k + 1)).foldl (fun acc c => acc * c) dq).to_pose)
  | [], _, k, h => absurd h (by simp)
  | c :: rest, dq, 0, _ => rfl
  | c :: rest, dq, k + 1, h => by
    simp only [chainPoses, List.get?, List.take, List.foldl]
    exact chainPoses_get rest (dq * c) k (by simpa using h)

theorem strideWalk_zero (N steps : ℕ) :
    strideWalk N steps 0 0 = (List.range steps).map (fun k => combIdx N (k + 1)) := by
  have h := strideWalk_shape N steps 0
  rw [combIdx_zero] at h
  rw [h]
  have hf : (fun k => combIdx N (0 + k + 1)) = fun k => combIdx N (k + 1) := by
    funext k
    congr 1
    omega
  rw [hf]

/-- On a full list of `C(N, 2)` pairwise results every index the chain construction
touches is in range, and the constructed chain is the explicit selection below. -/
theorem buildChain_full (N : ℕ) (hN : 2 ≤ N) (results : List DualQuaternion)
    (hlen : results.length = N.choose 2) :
    buildChain results N = some (1 :: results.getD 0 1 ::
      (((List.range (N - 2)).map (fun k => results.getD (combIdx N (k + 1)) 1))
        ++ [(results.getD (N - 2) 1).inverse])) := by
  have hpos : 0 < N.choose 2 := Nat.choose_pos hN
  have hlast := combIdx_last N hN
  have h0 : results.get? 0 = some (results.getD 0 1) :=
    get?_eq_getD_of_lt _ _ _ (by omega)
  have hclose : results.get? (N - 2) = some (results.getD (N - 2) 1) := by
    apply get?_eq_getD_of_lt
    have hle := le_combIdx N (N - 2) (le_refl _)
    omega
  have hsel : loopSelect results N (N - 2) 0 0
      = some ((List.range (N - 2)).map (fun k => results.getD (combIdx N (k + 1)) 1)) := by
    rw [loopSelect_eq_fetchAll, strideWalk_zero, fetchAll_eq_map]
    · rw [List.map_map]
      rfl
    · intro j hj
      simp only [List.mem_map, List.mem_range] at hj
      obtain ⟨k, hk, rfl⟩ := hj
      have h1 : combIdx N (k + 1) ≤ combIdx N (N - 2) := combIdx_mono N (by omega)
      omega
  unfold buildChain
  rw [h0, hsel, hclose]

/-- Each collected pose, as a whole list: the left-to-right partial products. -/
theorem chainPoses_eq_map (l : List DualQuaternion) (dq : DualQuaternion) :
    chainPoses dq l = (List.range l.length).map
      (fun k => ((l.take (k + 1)).foldl (fun acc c => acc * c) dq).to_pose) := by
  apply List.ext
  intro k
  by_cases hk : k < l.length
  · rw [chainPoses_get l dq k hk, List.get?_map, List.get?_range hk]
    rfl
  · rw [List.get?_eq_none.mpr, List.get?_eq_none.mpr]
    · simp only [List.length_map, List.length_range]
      omega
    · rw [chainPoses_length]
      omega

/-- Reduction helper: once the chain is known, `compute_loop_error` is the guarded
pose-error of the composed chain. -/
theorem compute_loop_error_some {E : Type} (pe : Pose → Pose → E)
    (results : List DualQuaternion) (N : ℕ) (chain : List DualQuaternion)
    (hb : buildChain results N = some chain) :
    compute_loop_error pe results N =
      if chain.length = N + 1 then
        some (pe (chainPoses 1 chain).headI ((chainPoses 1 chain).getLastD []))
      else none := by
  unfold compute_loop_error
  rw [hb]

/-- C1: for every `N ≥ 2`, given a full list of `C(N, 2)` pairwise dual-quaternion
results, the calibration transformation chain built by `compute_loop_error` has exactly
`N + 1` elements, so the length assertion never fails and the function returns a
value. -/
theorem claim_C1_loop_chain_length (N : ℕ) (hN : 2 ≤ N) (results : List DualQuaternion)
    (hlen : results.length = N * (N - 1) / 2) :
    (buildChain results N).map List.length = some (N + 1) ∧
    ∀ (E : Type) (pe : Pose → Pose → E),
      (compute_loop_error pe results N).isSome = true := by
  have hlen2 : results.length = N.choose 2 := by rw [hlen, Nat.choose_two_right]
  have hb := buildChain_full N hN results hlen2
  have hchainlen : (1 :: results.getD 0 1 ::
      (((List.range (N - 2)).map (fun k => results.getD (combIdx N (k + 1)) 1))
        ++ [(results.getD (N - 2) 1).inverse])).length = N + 1 := by
    simp only [List.length_cons, List.length_append, List.length_map, List.length_range,
      List.length_nil]
    omega
  constructor
  · rw [hb]
    exact congrArg some hchainlen
  · intro E pe
    rw [compute_loop_error_some pe results N _ hb, if_pos hchainlen]
    rfl

/-- Sample concrete inputs for witnesses. -/
def sampleDQ : DualQuaternion := ⟨⟨0, 0, 0, 1⟩, ⟨1, 2, 3, 0⟩⟩

/-- Sample concrete pose-error function for witnesses. -/
def peConst : Pose → Pose → ℕ := fun _ _ => 0

theorem claim_C1_witness : 2 ≤ 2 ∧ [sampleDQ].length = 2 * (2 - 1) / 2 ∧
    (buildChain [sampleDQ] 2).map List.length = some (2 + 1) ∧
    (compute_loop_error peConst [sampleDQ] 2).isSome = true :=
  ⟨le_refl 2, rfl,
    (claim_C1_loop_chain_length 2 (le_refl 2) [sampleDQ] rfl).1,
    (claim_C1_loop_chain_length 2 (le_refl 2) [sampleDQ] rfl).2 ℕ peConst⟩

/-- C2: the index-stride rule selects exactly the results of the consecutive-index file
pairs `(i, i+1)` for `i = 0 .. N-2`, in order, after the leading identity element, and
then appends the inverse of the result of the pair `(0, N-1)`: stated over the results
list laid out in `itertools.combinations` order over `N` files, with the result for
pair `p` being `f p`. -/
theorem claim_C2_chain_selection (N : ℕ) (hN : 2 ≤ N) (f : ℕ × ℕ → DualQuaternion) :
    buildChain ((combinations2 (List.range N)).map f) N
      = some (1 :: (((List.range (N - 1)).map (fun i => f (i, i + 1)))
          ++ [(f (0, N - 1)).inverse])) := by
  set r := (combinations2 (List.range N)).map f with hr
  have hlen : r.length = N.choose 2 := by
    rw [hr, List.length_map, combinations2_length, List.length_range]
  have hget : ∀ a b : ℕ, a < b → b < N →
      r.get? (combIdx N a + (b - a - 1)) = some (f (a, b)) := by
    intro a b hab hbN
    rw [hr, List.get?_map, combinations2_range_get N a b hab hbN]
    rfl
  have hgetD : ∀ a b : ℕ, a < b → b < N →
      r.getD (combIdx N a + (b - a - 1)) 1 = f (a, b) := by
    intro a b hab hbN
    have h1 := hget a b hab hbN
    have h2 : combIdx N a + (b - a - 1) < r.length := by
      by_contra hc
      rw [List.get?_eq_none.mpr (by omega)] at h1
      exact Option.noConfusion h1
    rw [get?_eq_getD_of_lt r _ (1 : DualQuaternion) h2] at h1
    exact Option.some.inj h1
  have h0 : r.getD 0 1 = f (0, 1) := by
    have h := hgetD 0 1 (by omega) (by omega)
    rwa [combIdx_zero, show (0 : ℕ) + (1 - 0 - 1) = 0 by omega] at h
  have hclose : r.getD (N - 2) 1 = f (0, N - 1) := by
    have h := hgetD 0 (N - 1) (by omega) (by omega)
    rwa [combIdx_zero, show (0 : ℕ) + (N - 1 - 0 - 1) = N - 2 by omega] at h
  have hmid : ∀ k, k < N - 2 → r.getD (combIdx N (k + 1)) 1 = f (k + 1, k + 2) := by
    intro k hk
    have h := hgetD (k + 1) (k + 2) (by omega) (by omega)
    rwa [show k + 2 - (k + 1) - 1 = 0 by omega, Nat.add_zero] at h
  rw [buildChain_full N hN r hlen, h0, hclose]
  rw [show N - 1 = (N - 2) + 1 by omega, List.range_succ_eq_map]
  simp only [List.map_cons, List.map_map, List.cons_append]
  have hmap : List.map (fun k => r.getD (combIdx N (k + 1)) 1) (List.range (N - 2))
      = List.map ((fun i => f (i, i + 1)) ∘ Nat.succ) (List.range (N - 2)) := by
    apply List.map_congr_left
    intro k hk
    rw [List.mem_range] at hk
    rw [hmid k hk]
    rfl
  rw [hmap]

/-- Sample result-per-pair assignment for witnesses. -/
def sampleF : ℕ × ℕ → DualQuaternion :=
  fun p => ⟨⟨0, 0, 0, 1⟩, ⟨(p.1 : ℚ), (p.2 : ℚ), 0, 0⟩⟩

theorem claim_C2_witness : 2 ≤ 3 ∧
    buildChain ((combinations2 (List.range 3)).map sampleF) 3
      = some (1 :: (((List.range 2).map (fun i => sampleF (i, i + 1)))
          ++ [(sampleF (0, 2)).inverse])) :=
  ⟨by omega, claim_C2_chain_selection 3 (by omega) sampleF⟩

/-- C5: `compute_loop_error` composes the `N + 1` chain elements sequentially
left-to-right starting from the identity transform (the k-th collected pose is the
product of the first `k + 1` chain elements seeded at the identity), yielding `N + 1`
poses, and returns the pose error between the first and the last of them. -/
theorem claim_C5_sequential_composition (N : ℕ) (hN : 2 ≤ N)
    (results : List DualQuaternion) (hlen : results.length = N * (N - 1) / 2)
    (E : Type) (pe : Pose → Pose → E) :
    (buildChain results N).isSome = true ∧
    (chainPoses 1 ((buildChain results N).getD [])).length = N + 1 ∧
    chainPoses 1 ((buildChain results N).getD [])
      = (List.range (N + 1)).map (fun k =>
          ((((buildChain results N).getD []).take (k + 1)).foldl
            (fun acc c => acc * c) 1).to_pose) ∧
    compute_loop_error pe results N
      = some (pe (chainPoses 1 ((buildChain results N).getD [])).headI
          ((chainPoses 1 ((buildChain results N).getD [])).getLastD [])) := by
  have hlen2 : results.length = N.choose 2 := by rw [hlen, Nat.choose_two_right]
  have hb := buildChain_full N hN results hlen2
  have hgd : (buildChain results N).getD [] = 1 :: results.getD 0 1 ::
      (((List.range (N - 2)).map (fun k => results.getD (combIdx N (k + 1)) 1))
        ++ [(results.getD (N - 2) 1).inverse]) := by
    rw [hb]
    rfl
  have hchainlen : ((buildChain results N).getD []).length = N + 1 := by
    rw [hgd]
    simp only [List.length_cons, List.length_append, List.length_map, List.length_range,
      List.length_nil]
    omega
  have hsome : buildChain results N = some ((buildChain results N).getD []) := by
    rw [hb]
    rfl
  refine ⟨?_, ?_, ?_, ?_⟩
  · rw [hb]
    rfl
  · rw [chainPoses_length, hchainlen]
  · rw [chainPoses_eq_map, hchainlen]
  · rw [compute_loop_error_some pe results N _ hsome, if_pos hchainlen]

theorem claim_C5_witness : 2 ≤ 2 ∧ [sampleDQ].length = 2 * (2 - 1) / 2 ∧
    (buildChain [sampleDQ] 2).isSome = true ∧
    compute_loop_error peConst [sampleDQ] 2
      = some (peConst (chainPoses 1 ((buildChain [sampleDQ] 2).getD [])).headI
          ((chainPoses 1 ((buildChain [sampleDQ] 2).getD [])).getLastD [])) :=
  ⟨le_refl 2, rfl,
    (claim_C5_sequential_composition 2 (le_refl 2) [sampleDQ] rfl ℕ peConst).1,
    (claim_C5_sequential_composition 2 (le_refl 2) [sampleDQ] rfl ℕ peConst).2.2.2⟩

/-- C6: for `N = 2` the loop-closure chain is `[identity, T, T.inverse()]` (length 3),
and because a valid (unit rotation norm) transform composed with its inverse is exactly
the identity over exact arithmetic, the returned loop-closure position and orientation
errors are zero for every such input, for any pose-error function that vanishes on
identical poses. -/
theorem claim_C6_degenerate_two_files (T : DualQuaternion)
    (hT : T.q_rot.squaredNorm = 1) :
    buildChain [T] 2 = some [1, T, T.inverse] ∧
    ∀ (pe : Pose → Pose → ℚ × ℚ), (∀ p : Pose, pe p p = (0, 0)) →
      compute_loop_error pe [T] 2 = some (0, 0) := by
  have hchain : buildChain [T] 2 = some [1, T, T.inverse] := rfl
  refine ⟨hchain, ?_⟩
  intro pe hpe
  have h11 : (1 : DualQuaternion) * 1 = 1 := DualQuaternion.one_mul_dq 1
  have hT1 : (1 : DualQuaternion) * 1 * T = T := by
    rw [h11, DualQuaternion.one_mul_dq]
  have hTT : (1 : DualQuaternion) * 1 * T * T.inverse = 1 := by
    rw [hT1, DualQuaternion.mul_inverse_of_unit hT]
  rw [compute_loop_error_some pe [T] 2 _ hchain]
  show some (pe ((1 * 1 : DualQuaternion).to_pose)
      ((1 * 1 * T * T.inverse).to_pose)) = some (0, 0)
  rw [hTT, h11, hpe]

theorem claim_C6_witness : sampleDQ.q_rot.squaredNorm = 1 ∧
    compute_loop_error (fun _ _ => ((0 : ℚ), (0 : ℚ))) [sampleDQ] 2 = some (0, 0) :=
  ⟨by norm_num [sampleDQ, Quaternion.squaredNorm],
    (claim_C6_degenerate_two_files sampleDQ
      (by norm_num [sampleDQ, Quaternion.squaredNorm])).2 _ (fun _ => rfl)⟩

/-- The only `results_dq_H_E` indices `compute_loop_error` ever reads: index 0, the
indices visited by the stride `idx += N - i - 1` for `i = 0 .. N-3`, and index
`N - 2`. -/
def relevantIndices (N : ℕ) : List ℕ := 0 :: (strideWalk N (N - 2) 0 0 ++ [N - 2])

/-- C10: the value of `compute_loop_error` depends only on the entries of
`results_dq_H_E` at the relevant indices: two result lists agreeing there produce
identical loop-closure errors. -/
theorem claim_C10_noninterference {E : Type} (pe : Pose → Pose → E)
    (r1 r2 : List DualQuaternion) (N : ℕ)
    (h : ∀ j ∈ relevantIndices N, r1.get? j = r2.get? j) :
    compute_loop_error pe r1 N = compute_loop_error pe r2 N := by
  have h0 : r1.get? 0 = r2.get? 0 := h 0 (List.mem_cons_self _ _)
  have hNm2 : r1.get? (N - 2) = r2.get? (N - 2) := by
    apply h
    simp [relevantIndices]
  have hw : ∀ j ∈ strideWalk N (N - 2) 0 0, r1.get? j = r2.get? j := by
    intro j hj
    apply h
    simp [relevantIndices, hj]
  have hsel : loopSelect r1 N (N - 2) 0 0 = loopSelect r2 N (N - 2) 0 0 := by
    rw [loopSelect_eq_fetchAll, loopSelect_eq_fetchAll]
    exact fetchAll_congr r1 r2 _ hw
  have hb : buildChain r1 N = buildChain r2 N := by
    unfold buildChain
    rw [h0, hsel, hNm2]
  unfold compute_loop_error
  rw [hb]

/-- Two result lists for `N = 4` that agree on the relevant indices 0, 3, 5, 2 but
differ at the unread indices 1 and 4. -/
def sampleList1 : List DualQuaternion :=
  [sampleF (0, 1), sampleF (0, 2), sampleF (0, 3),
   sampleF (1, 2), sampleF (1, 3), sampleF (2, 3)]

def sampleList2 : List DualQuaternion :=
  [sampleF (0, 1), ⟨⟨0, 0, 0, 1⟩, ⟨9, 9, 9, 9⟩⟩, sampleF (0, 3),
   sampleF (1, 2), ⟨⟨0, 0, 0, 1⟩, ⟨7, 7, 7, 7⟩⟩, sampleF (2, 3)]

theorem claim_C10_witness :
    compute_loop_error peConst sampleList1 4 = compute_loop_error peConst sampleList2 4 :=
  claim_C10_noninterference peConst sampleList1 sampleList2 4 (by decide)

/-! ## The experiment driver (source lines 92-392) -/

/-- The two solver-variant switches of `HandEyeConfig` read by the driver (line 162). -/
structure HandEyeConfig where
  use_baseline_approach : Bool
  enable_exhaustive_search : Bool
deriving DecidableEq, Repr

/-- Lines 162-165: deterministic variants (exhaustive search or baseline) run one
iteration; all other configurations run the requested `--num_iterations`. -/
def numIterationsFor (hand_eye_config : HandEyeConfig) (args_num_iterations : ℕ) : ℕ :=
  if hand_eye_config.enable_exhaustive_search || hand_eye_config.use_baseline_approach
  then 1 else args_num_iterations

/-- Lines 113-132: validation of the command-line pose files and construction of the
pose pairs, modelling each Python `assert` as an `Except.error`.  When no
`--is_absolute_pose_sensor` flags are given they default to all-`False` (lines
120-125).  Returns the pose-file pairs, the flag pairs, and `num_pose_pairs`. -/
def setupPairs (poses_B_H_csv_files : List String)
    (is_absolute_pose_sensor : Option (List Bool)) :
    Except String (List (String × String) × List (Bool × Bool) × ℕ) :=
  if poses_B_H_csv_files.length < 2 then
    Except.error "Needs at least two sets of poses."
  else
    let is_absolute_pose_sensor_flags :=
      match is_absolute_pose_sensor with
      | none => List.replicate poses_B_H_csv_files.length false
      | some flags => flags
    if is_absolute_pose_sensor_flags.length ≠ poses_B_H_csv_files.length then
      Except.error "assert: flags do not match the number of pose files"
    else
      let set_of_pose_pairs := combinations2 poses_B_H_csv_files
      let set_of_is_absolute_sensor_flags := combinations2 is_absolute_pose_sensor_flags
      if set_of_pose_pairs.length ≠ is_absolute_pose_sensor_flags.length then
        Except.error "assert: pose pair count does not match flag count"
      else
        Except.ok (set_of_pose_pairs, set_of_is_absolute_sensor_flags,
          set_of_pose_pairs.length)

/-- The per-pair fields of `experiment_results.ResultEntry` that the driver appends to
(lines 269-276, 333-335, 345-347). -/
structure ResultEntry where
  dataset_names : List (String × String)
  success : List Bool
  num_initial_poses : List ℕ
  num_poses_kept : List ℕ
  runtimes : List ℚ
  singular_values : List (List ℚ)
  bad_singular_value : List Bool
  optimization_success : List Bool
  rmse : List (ℚ × ℚ)
  num_inliers : List ℕ
deriving DecidableEq, Repr

def ResultEntry.empty : ResultEntry := ⟨[], [], [], [], [], [], [], [], [], []⟩

/-- The in-memory per-iteration accumulators (lines 169-176). -/
structure IterState where
  results_dq_H_E : List (Option DualQuaternion)
  results_poses_H_E : List (Option Pose)
  entry : ResultEntry
deriving DecidableEq, Repr

def IterState.empty : IterState := ⟨[], [], ResultEntry.empty⟩

/-- The values computed for the current pose pair by the non-optimization-only branch
(lines 202-250): the aligned dual-quaternion path and the solver's 8-tuple result
`(success, dq_H_E, rmse, num_inliers, num_poses_kept, runtime, singular_values,
bad_singular_values)`. -/
structure SolveOutput where
  success : Bool
  dq_H_E : Option DualQuaternion
  rmse : ℚ × ℚ
  num_inliers : ℕ
  num_poses_kept : ℕ
  runtime : ℚ
  singular_values : List ℚ
  bad_singular_values : Bool
  dual_quat_B_H_vec : List DualQuaternion
deriving DecidableEq, Repr

/-- One pose pair processed with optimization disabled: the result-entry fill-in
(lines 269-276) followed by the else branch that stores the initial algorithm's result
(lines 337-348).  Line 347 appends `True` to `optimization_success` unconditionally,
even when the solve itself failed (`success = False`, `dq_H_E = None`). -/
def processPairNoOptimization (out : SolveOutput) (pair : String × String)
    (st : IterState) : IterState :=
  { results_dq_H_E := st.results_dq_H_E ++ [out.dq_H_E]
    results_poses_H_E := st.results_poses_H_E ++ [out.dq_H_E.map DualQuaternion.to_pose]
    entry := { st.entry with
      dataset_names := st.entry.dataset_names ++ [pair]
      success := st.entry.success ++ [out.success]
      num_initial_poses := st.entry.num_initial_poses ++ [out.dual_quat_B_H_vec.length]
      num_poses_kept := st.entry.num_poses_kept ++ [out.num_poses_kept]
      runtimes := st.entry.runtimes ++ [out.runtime]
      singular_values := st.entry.singular_values ++ [out.singular_values]
      bad_singular_value := st.entry.bad_singular_value ++ [out.bad_singular_values]
      rmse := st.entry.rmse ++ [out.rmse]
      num_inliers := st.entry.num_inliers ++ [out.num_inliers]
      optimization_success := st.entry.optimization_success ++ [true] } }

/-- Line 358: the loop-closure gate
`sum(result_entry.optimization_success) == num_pose_pairs`; Python sums booleans, so
this counts the `True` entries. -/
def loopErrorGate (entry : ResultEntry) (num_pose_pairs : ℕ) : Bool :=
  (entry.optimization_success.countP (fun b => b)) == num_pose_pairs

/-- The outcome of the external optimizer invocation plus its follow-up evaluation
(lines 295-324): `none` models the exception caught from `run(...)`, `some` carries the
refined calibration read back from the output file and its evaluation. -/
structure OptResult where
  dq_H_E_optimized : DualQuaternion
  rmse_optimized : ℚ × ℚ
  num_inliers_optimized : ℕ
deriving DecidableEq, Repr

/-- The optimization block for one pose pair (lines 279-335): on an optimizer exception
the failure is caught and logged, `optimization_success` becomes `False`, and the
per-pair slots are filled from the initialization values of lines 285-289
(`dq_H_E_optimized = None`, `rmse_optimized = (-1, -1)`, `num_inliers_optimized = 0`);
on success the optimized calibration is stored. -/
def runOptimizationStep (outcome : Option OptResult) (st : IterState) : IterState :=
  match outcome with
  | none =>
    { results_dq_H_E := st.results_dq_H_E ++ [none]
      results_poses_H_E := st.results_poses_H_E ++ [none]
      entry := { st.entry with
        optimization_success := st.entry.optimization_success ++ [false]
        rmse := st.entry.rmse ++ [(-1, -1)]
        num_inliers := st.entry.num_inliers ++ [0] } }
  | some r =>
    { results_dq_H_E := st.results_dq_H_E ++ [some r.dq_H_E_optimized]
      results_poses_H_E := st.results_poses_H_E ++ [some r.dq_H_E_optimized.to_pose]
      entry := { st.entry with
        optimization_success := st.entry.optimization_success ++ [true]
        rmse := st.entry.rmse ++ [r.rmse_optimized]
        num_inliers := st.entry.num_inliers ++ [r.num_inliers_optimized] } }

/-- The module-level variables read by the result-entry fill-in (lines 269-276); in
optimization-only mode they are never assigned for the current pair, so each holds
either nothing (fresh run: reading it is Python's `NameError`) or the value left over
from an earlier non-optimization-only computation. -/
structure SolveVars where
  success : Option Bool
  dual_quat_B_H_vec : Option (List DualQuaternion)
  num_poses_kept : Option ℕ
  runtime : Option ℚ
  singular_values : Option (List ℚ)
  bad_singular_values : Option Bool
deriving DecidableEq, Repr

def SolveVars.unassigned : SolveVars := ⟨none, none, none, none, none, none⟩

/-- The assignments performed by the non-optimization-only branch (lines 202-250). -/
def assignVars (out : SolveOutput) : SolveVars :=
  ⟨some out.success, some out.dual_quat_B_H_vec, some out.num_poses_kept,
   some out.runtime, some out.singular_values, some out.bad_singular_values⟩

/-- The result-entry fill-in (lines 269-276), reading the module-level variables;
reading an unassigned one raises Python's `NameError`. -/
def fillResultEntry (v : SolveVars) (pair : String × String) (e : ResultEntry) :
    Except String ResultEntry :=
  match v.success, v.dual_quat_B_H_vec, v.num_poses_kept, v.runtime,
      v.singular_values, v.bad_singular_values with
  | some s, some dqvec, some npk, some rt, some sv, some bsv =>
    Except.ok { e with
      dataset_names := e.dataset_names ++ [pair]
      success := e.success ++ [s]
      num_initial_poses := e.num_initial_poses ++ [dqvec.length]
      num_poses_kept := e.num_poses_kept ++ [npk]
      runtimes := e.runtimes ++ [rt]
      singular_values := e.singular_values ++ [sv]
      bad_singular_value := e.bad_singular_value ++ [bsv] }
  | _, _, _, _, _, _ => Except.error "NameError"

/-- One pair's computation-and-fill (lines 202-276): in optimization-only mode the
module-level variables keep whatever they held before; otherwise they are assigned from
the current pair's computation `out`.  Either way the result entry is then filled from
the variables. -/
def pairComputeAndFill (optimization_only : Bool) (out : SolveOutput)
    (pair : String × String) (v : SolveVars) (e : ResultEntry) :
    Except String (SolveVars × ResultEntry) :=
  let v2 := if optimization_only then v else assignVars out
  (fillResultEntry v2 pair e).map (fun e2 => (v2, e2))

/-- C3 (code bug): with two pose files there is exactly one pair, but the assert at
line 132 compares `len(set_of_pose_pairs) = C(N, 2)` with
`len(is_absolute_pose_sensor_flags) = N` and aborts the driver before any pair is
processed; that assert holds only for `N = 3` (where `C(3, 2) = 3`). -/
theorem claim_C3_pair_count_assert_fails :
    (combinations2 ["poses1.csv", "poses2.csv"]).length = 1 ∧
    setupPairs ["poses1.csv", "poses2.csv"] none
      = Except.error "assert: pose pair count does not match flag count" ∧
    setupPairs ["poses1.csv", "poses2.csv", "poses3.csv"] none
      = Except.ok ([("poses1.csv", "poses2.csv"), ("poses1.csv", "poses3.csv"),
          ("poses2.csv", "poses3.csv")],
          [(false, false), (false, false), (false, false)], 3) :=
  ⟨rfl, rfl, rfl⟩

/-- A pose pair whose hand-eye solve failed: `success = False`, estimate `None`. -/
def failedSolve : SolveOutput := ⟨false, none, (-1, -1), 0, 0, 0, [], true, []⟩

/-- A pose pair whose hand-eye solve succeeded. -/
def okSolve : SolveOutput :=
  ⟨true, some sampleDQ, (0, 0), 5, 5, 1, [0, 0], false, [sampleDQ]⟩

/-- The iteration state after three pairs with optimization disabled, the first pair's
solve having failed. -/
def c4State : IterState :=
  processPairNoOptimization okSolve ("poses2.csv", "poses3.csv")
    (processPairNoOptimization okSolve ("poses1.csv", "poses3.csv")
      (processPairNoOptimization failedSolve ("poses1.csv", "poses2.csv")
        IterState.empty))

/-- C4 (code bug): with optimization disabled, a failed solve still appends
`optimization_success = True` (line 347), so the gate of line 358 passes and
`compute_loop_error` is invoked on a results list containing `None` instead of being
skipped; the failed pair's `None` estimate sits at index 0 of the list handed to the
loop-closure computation. -/
theorem claim_C4_gate_ignores_solver_failure :
    c4State.entry.success = [false, true, true] ∧
    c4State.entry.optimization_success = [true, true, true] ∧
    c4State.results_dq_H_E = [none, some sampleDQ, some sampleDQ] ∧
    loopErrorGate c4State.entry 3 = true := by
  refine ⟨rfl, rfl, rfl, rfl⟩

/-- C7: a failed optimizer invocation is caught and recorded as
`optimization_success = False` for that pair without aborting, and every previously
accumulated in-memory result — the prefixes of `results_dq_H_E` and
`results_poses_H_E`, and all result-entry fields filled so far — is unchanged. -/
theorem claim_C7_optimizer_failure_is_isolated (st : IterState) :
    (runOptimizationStep none st).entry.optimization_success
      = st.entry.optimization_success ++ [false] ∧
    (runOptimizationStep none st).results_dq_H_E = st.results_dq_H_E ++ [none] ∧
    (runOptimizationStep none st).results_poses_H_E = st.results_poses_H_E ++ [none] ∧
    (runOptimizationStep none st).results_dq_H_E.take st.results_dq_H_E.length
      = st.results_dq_H_E ∧
    (runOptimizationStep none st).results_poses_H_E.take st.results_poses_H_E.length
      = st.results_poses_H_E ∧
    (runOptimizationStep none st).entry.optimization_success.take
      st.entry.optimization_success.length = st.entry.optimization_success ∧
    (runOptimizationStep none st).entry.rmse.take st.entry.rmse.length
      = st.entry.rmse ∧
    (runOptimizationStep none st).entry.num_inliers.take st.entry.num_inliers.length
      = st.entry.num_inliers ∧
    (runOptimizationStep none st).entry.dataset_names = st.entry.dataset_names ∧
    (runOptimizationStep none st).entry.success = st.entry.success ∧
    (runOptimizationStep none st).entry.num_initial_poses
      = st.entry.num_initial_poses ∧
    (runOptimizationStep none st).entry.num_poses_kept = st.entry.num_poses_kept ∧
    (runOptimizationStep none st).entry.runtimes = st.entry.runtimes ∧
    (runOptimizationStep none st).entry.singular_values = st.entry.singular_values ∧
    (runOptimizationStep none st).entry.bad_singular_value
      = st.entry.bad_singular_value :=
  ⟨rfl, rfl, rfl, List.take_left _ _, List.take_left _ _, List.take_left _ _,
   List.take_left _ _, List.take_left _ _, rfl, rfl, rfl, rfl, rfl, rfl, rfl⟩

/-- C8: configurations with `use_baseline_approach` or `enable_exhaustive_search`
enabled run exactly one iteration regardless of `--num_iterations`; all others run the
requested count. -/
theorem claim_C8_deterministic_single_iteration (cfg : HandEyeConfig) (n : ℕ) :
    ((cfg.use_baseline_approach = true ∨ cfg.enable_exhaustive_search = true) →
      numIterationsFor cfg n = 1) ∧
    (cfg.use_baseline_approach = false → cfg.enable_exhaustive_search = false →
      numIterationsFor cfg n = n) := by
  constructor
  · intro h
    rcases h with h | h <;> simp [numIterationsFor, h]
  · intro h1 h2
    simp [numIterationsFor, h1, h2]

theorem claim_C8_witness :
    numIterationsFor ⟨true, false⟩ 7 = 1 ∧ numIterationsFor ⟨false, false⟩ 7 = 7 :=
  ⟨(claim_C8_deterministic_single_iteration ⟨true, false⟩ 7).1 (Or.inl rfl),
   (claim_C8_deterministic_single_iteration ⟨false, false⟩ 7).2 rfl rfl⟩

/-- C9: in optimization-only mode the result entry is filled from the six variables
`success`, `dual_quat_B_H_vec`, `num_poses_kept`, `runtime`, `singular_values` and
`bad_singular_values` without assigning them for the current pair: on a fresh run this
raises `NameError`, and otherwise the recorded diagnostics are the stale values of an
earlier computation `outPrev` — the current pair's `out` never occurs in the result. -/
theorem claim_C9_optimization_only_stale_diagnostics (out outPrev : SolveOutput)
    (pair : String × String) (e : ResultEntry) :
    pairComputeAndFill true out pair SolveVars.unassigned e
      = Except.error "NameError" ∧
    pairComputeAndFill true out pair (assignVars outPrev) e
      = Except.ok (assignVars outPrev, { e with
          dataset_names := e.dataset_names ++ [pair]
          success := e.success ++ [outPrev.success]
          num_initial_poses := e.num_initial_poses ++ [outPrev.dual_quat_B_H_vec.length]
          num_poses_kept := e.num_poses_kept ++ [outPrev.num_poses_kept]
          runtimes := e.runtimes ++ [outPrev.runtime]
          singular_values := e.singular_values ++ [outPrev.singular_values]
          bad_singular_value := e.bad_singular_value ++ [outPrev.bad_singular_values] }) :=
  ⟨rfl, rfl⟩

end HandEyeCalib
